import Mathlib

/-!
Verification of the puzzle-definition build pipeline of Hyperspeedcube.

The Rust sources are shallowly embedded: machine integers become `Nat` (with
explicit width bookkeeping where overflow matters), `Vec` indexing becomes
`List.getD`, hash maps and `IndexMap`s become association lists, fallible code
returns `Option`, and panics become `Option.none`.
-/

namespace Hyperspeedcube

/-! ### Association lists, modelling `HashMap` and `IndexMap` lookups -/

/-- Looks up the first entry with the given key in an association list. -/
def alookup {α β : Type} [DecidableEq α] (k : α) : List (α × β) → Option β
  | [] => none
  | e :: t => if e.1 = k then some e.2 else alookup k t

/-! ### Twists, from `ndpuzzle/src/puzzle/common/puzzle_type.rs` -/

/-- Modelled from the spec: the `Twist` struct itself is defined outside the
provided sources. Per the spec and its use in `canonicalize_twist`, a twist is
a layer mask (a `LayerMask(LayerMaskUint)` bitset, `LayerMaskUint = u32`)
together with a twist-transform reference (a dense allocation index). -/
structure Twist where
  layers : Nat
  transform : Nat
deriving DecidableEq

/-- Modelled from the spec: the derived lexicographic strict order on `Twist`
(numerically smaller layer mask first, ties broken by the earlier allocation
index), as used by `std::cmp::min` in `canonicalize_twist`. -/
def Twist.lt (a b : Twist) : Prop :=
  a.layers < b.layers ∨ (a.layers = b.layers ∧ a.transform < b.transform)

instance (a b : Twist) : Decidable (Twist.lt a b) :=
  inferInstanceAs (Decidable (_ ∨ _))

/-- Model of `std::cmp::min`: returns the first argument unless the second is
strictly smaller. -/
def twistMin (a b : Twist) : Twist := if Twist.lt b a then b else a

/-- Twist-transform info: only the fields read by `puzzle_type.rs` are
modelled (`axis`, `reverse`, `opposite`); the struct is defined outside the
provided sources. -/
structure TwistTransformInfo where
  axis : Nat
  reverse : Nat
  opposite : Option Nat
deriving DecidableEq

/-- Twist-axis info, reduced to its layer count (`axis_info.layer_count()`). -/
structure TwistAxisInfo where
  layer_count : Nat
deriving DecidableEq

/-- The part of `PuzzleType` read by `reverse_twist` and `canonicalize_twist`:
the twist-transform table and the twist-axis table (`self.info(...)` is a
dense-index lookup into these). -/
structure PuzzleType where
  axes : List TwistAxisInfo
  transforms : List TwistTransformInfo

/-- Default element standing for the out-of-bounds case of `Vec` indexing
(which panics in Rust); all verified statements about lookups carry
in-bounds hypotheses where the lookup matters. -/
def defaultTransformInfo : TwistTransformInfo := ⟨0, 0, none⟩

/-- Default element for out-of-bounds twist-axis lookups. -/
def defaultAxisInfo : TwistAxisInfo := ⟨0⟩

/-- Reversal of the low `w` bits of `m`: bit `j` of `m` becomes bit
`w - 1 - j` of the result. With `w = 32` this is `u32::reverse_bits`. -/
def revBits : Nat → Nat → Nat
  | 0, _ => 0
  | w + 1, m => 2 ^ w * (m % 2) + revBits w (m / 2)

/-- The reversed layer mask computed inside `canonicalize_twist`:
`twist.layers.0.reverse_bits() >> (LayerMaskUint::BITS - layer_count)` with
`LayerMaskUint = u32`, so `BITS = 32`. For `layer_count > 32` the Rust `u32`
subtraction underflows (a panic in debug builds); the model's truncated `Nat`
subtraction is one total completion of that behaviour, and the verified
reversal properties assume `layer_count ≤ 32`. -/
def reversed_layer_mask (m n : Nat) : Nat := revBits 32 m >>> (32 - n)

/-- Model of `PuzzleType::reverse_twist`: same layer mask, transform replaced
by the transform's `reverse` reference. -/
def PuzzleType.reverse_twist (p : PuzzleType) (t : Twist) : Twist :=
  { layers := t.layers
    transform := (p.transforms.getD t.transform defaultTransformInfo).reverse }

/-- The opposite twist built inside `canonicalize_twist`: the opposite
transform applied with the reversed layer mask of the twist's axis. -/
def PuzzleType.oppositeTwist (p : PuzzleType) (t : Twist) (o : Nat) : Twist :=
  { layers := reversed_layer_mask t.layers
      ((p.axes.getD (p.transforms.getD t.transform defaultTransformInfo).axis
        defaultAxisInfo).layer_count)
    transform := o }

/-- Model of `PuzzleType::canonicalize_twist`. -/
def PuzzleType.canonicalize_twist (p : PuzzleType) (t : Twist) : Twist :=
  match (p.transforms.getD t.transform defaultTransformInfo).opposite with
  | some o => twistMin t (p.oppositeTwist t o)
  | none => t

/-- The total order described by the spec for canonicalization: the twist with
the numerically smaller layer mask sorts first, ties (equal layer masks) break
by earliest allocation order. -/
def twistSpecLE (a b : Twist) : Prop :=
  a.layers < b.layers ∨ (a.layers = b.layers ∧ a.transform ≤ b.transform)

/-! ### Naming, from `hyperpuzzle/src/builder/mod.rs` -/

/-- Modelled from the spec: `NamingScheme` itself is defined outside the
provided sources; `iter_autonamed` reads it only through `ids_to_names()` and
`ids_to_display_names()`, modelled as association lists from IDs to
user-supplied names (a map, so keys are unique where that matters). -/
structure NamingScheme where
  names : List (Nat × String)
  displayNames : List (Nat × String)

/-- Loop of `warn_on_duplicates`: walking the list with a `seen` set, every
element already seen emits a warning (the warning payload is modelled as the
duplicated name itself). -/
def warnDupGo (seen : List String) : List String → List String
  | [] => []
  | s :: rest =>
    if s ∈ seen then s :: warnDupGo seen rest else warnDupGo (s :: seen) rest

/-- Model of `warn_on_duplicates`: the list of emitted duplicate warnings. -/
def warn_on_duplicates (l : List String) : List String := warnDupGo [] l

/-- The filtered autoname candidate sequence of `iter_autonamed`: candidates
already claimed by a user-supplied name are skipped. -/
def availNames (ns : NamingScheme) (autonames : List String) : List String :=
  autonames.filter (fun s => decide (s ∉ ns.names.map Prod.snd))

/-- The assignment loop of `iter_autonamed`: IDs with a user name keep it,
unnamed IDs consume the next unused candidate (`none` models the
`expect("ran out of names")` panic on exhaustion); the display name falls
back to the resolved name. -/
def autonamedList (n d : List (Nat × String)) :
    List Nat → List String → Option (List (Nat × String × String))
  | [], _ => some []
  | id :: rest, avail =>
    match alookup id n with
    | some s =>
      (autonamedList n d rest avail).map
        (fun l => (id, s, (alookup id d).getD s) :: l)
    | none =>
      match avail with
      | [] => none
      | a :: avail2 =>
        (autonamedList n d rest avail2).map
          (fun l => (id, a, (alookup id d).getD a) :: l)

/-- Model of `iter_autonamed`: the duplicate warnings over user names and
user display names, paired with the autonaming assignment over the canonical
order against the filtered candidate sequence. -/
def iter_autonamed (ns : NamingScheme) (order : List Nat) (autonames : List String) :
    List String × Option (List (Nat × String × String)) :=
  (warn_on_duplicates (ns.names.map Prod.snd) ++
      warn_on_duplicates (ns.displayNames.map Prod.snd),
    autonamedList ns.names ns.displayNames order (availNames ns autonames))

/-- Number of occurrences in `order` of IDs without a user-supplied name. -/
def unnamedCountIn (n : List (Nat × String)) (order : List Nat) : Nat :=
  (order.filter (fun i => (alookup i n).isNone)).length

/-! ### Colors, from `hyperspeedcube/src/preferences/colors.rs` -/

/-- Model of `hyperpuzzle::Rgb` (a packed `[u8; 3]`). -/
structure Rgb where
  rgb : Nat × Nat × Nat
deriving DecidableEq

/-- Model of `hyperpuzzle::DefaultColor`, defined outside the provided
sources; its variants and fields are fully determined by the `match` in
`GlobalColorPalette::get`. -/
inductive DefaultColor where
  | Unknown : DefaultColor
  | HexCode (rgb : Rgb) : DefaultColor
  | Single (name : String) : DefaultColor
  | Set (set_name : String) (index : Nat) : DefaultColor
  | Gradient (gradient_name : String) (index : Nat) (total : Nat) : DefaultColor
deriving DecidableEq

/-- Model of `DefaultColorGradient`: the single (non-commented) `Rainbow`
variant. -/
inductive DefaultColorGradient where
  | Rainbow : DefaultColorGradient
deriving DecidableEq

/-- Model of `str::parse::<DefaultColorGradient>` (strum's `EnumString`
derive matches the variant name). -/
def parseGradient (s : String) : Option DefaultColorGradient :=
  if s = "Rainbow" then some DefaultColorGradient.Rainbow else none

/-- Model of `DefaultColorGradient::sample`: the `colorous` gradient
evaluation is floating-point interpolation whose value the verified claims
never inspect, so it is modelled as a total function with a fixed result. -/
def DefaultColorGradient.sample (_g : DefaultColorGradient)
    (_index _total : Nat) : Rgb :=
  ⟨(0, 0, 0)⟩

/-- Model of `GlobalColorPalette`; `PresetsList` is modelled as a
name-to-value association (`get` reads it only through
`custom_colors.get(name)?.value`). -/
structure GlobalColorPalette where
  custom_colors : List (String × Rgb)
  builtin_colors : List (String × Rgb)
  builtin_color_sets : List (String × List Rgb)

/-- Model of `GlobalColorPalette::get_set`. -/
def GlobalColorPalette.get_set (p : GlobalColorPalette) (set_name : String) :
    Option (List Rgb) :=
  alookup set_name p.builtin_color_sets

/-- Model of `GlobalColorPalette::get`. -/
def GlobalColorPalette.get (p : GlobalColorPalette) (c : DefaultColor) :
    Option Rgb :=
  match c with
  | DefaultColor.Unknown => none
  | DefaultColor.HexCode rgb => some rgb
  | DefaultColor.Single name =>
    (alookup name p.builtin_colors).orElse (fun _ => alookup name p.custom_colors)
  | DefaultColor.Set set_name index =>
    (p.get_set set_name).bind (fun s => s.get? index)
  | DefaultColor.Gradient gradient_name index total =>
    (parseGradient gradient_name).map (fun g => g.sample index total)

/-- Model of `GlobalColorPalette::has`: gradients short-circuit to parsing
the gradient name; every other case defers to `get`. -/
def GlobalColorPalette.has (p : GlobalColorPalette) (c : DefaultColor) : Bool :=
  match c with
  | DefaultColor.Gradient gradient_name _ _ => (parseGradient gradient_name).isSome
  | c => (p.get c).isSome

/-- A color scheme: the ordered name-to-default-color map
(`IndexMap<String, DefaultColor>`); unique keys are the `IndexMap`
invariant. -/
abbrev ColorScheme := List (String × DefaultColor)

/-- Model of `hyperpuzzle::ColorInfo` (user-facing name and optional default
color reference). -/
structure ColorInfo where
  name : String
  default_color : Option String
deriving DecidableEq

/-- Modelled from the spec: the part of `hyperpuzzle::ColorSystem` read by
`ensure_color_scheme_is_valid_for_color_system` is its ordered color list. -/
structure ColorSystem where
  list : List ColorInfo

/-- The color system's color names in list order. -/
def ColorSystem.names (cs : ColorSystem) : List String :=
  cs.list.map ColorInfo.name

/-- Model of `IndexMap::swap_remove_entry` keyed by `k`. The real operation
moves the last entry into the vacated slot; the intermediate scheme it is
applied to here is only ever queried by key and then discarded, so removal is
modelled preserving the relative order of the remaining entries. -/
def swapRemoveEntry (k : String) :
    ColorScheme → Option ((String × DefaultColor) × ColorScheme)
  | [] => none
  | e :: t =>
    if e.1 = k then some (e, t)
    else (swapRemoveEntry k t).map (fun r => (r.1, e :: r.2))

/-- The re-pairing pass of the scheme rebuild: for each color name in list
order, take the matching entry out of the evolving old scheme, or fill the
gap with the unknown placeholder. -/
def rebuildPairs : ColorScheme → List String → List (String × DefaultColor)
  | _, [] => []
  | s, n :: rest =>
    match swapRemoveEntry n s with
    | some r => r.1 :: rebuildPairs r.2 rest
    | none => (n, DefaultColor.Unknown) :: rebuildPairs s rest

/-- Model of `IndexMap` insertion: an existing key keeps its position and has
its value replaced; a new key is appended. -/
def indexMapInsert (m : ColorScheme) (k : String) (v : DefaultColor) :
    ColorScheme :=
  if k ∈ m.map Prod.fst then m.map (fun e => if e.1 = k then (e.1, v) else e)
  else m ++ [(k, v)]

/-- Model of `collect::<IndexMap<_, _>>()`. -/
def collectIndexMap (pairs : List (String × DefaultColor)) : ColorScheme :=
  pairs.foldl (fun acc e => indexMapInsert acc e.1 e.2) []

/-- The scheme rebuild of `ensure_color_scheme_is_valid_for_color_system`. -/
def rebuildScheme (names : List String) (scheme : ColorScheme) : ColorScheme :=
  collectIndexMap (rebuildPairs scheme names)

/-- Modelled from the spec: `hyperpuzzle::ensure_color_scheme_is_valid` is
not among the provided sources. Per the spec, every entry whose default-color
reference the palette cannot resolve is reset to the unknown placeholder, and
the function reports whether any change occurred. -/
def ensure_color_scheme_is_valid (valid : DefaultColor → Bool)
    (colors : List DefaultColor) : Bool × List DefaultColor :=
  (colors.any (fun c => !valid c && decide (c ≠ DefaultColor.Unknown)),
    colors.map (fun c => if valid c then c else DefaultColor.Unknown))

/-- Resets a single unresolvable default color to the unknown placeholder. -/
def fixColor (p : GlobalColorPalette) (c : DefaultColor) : DefaultColor :=
  if p.has c then c else DefaultColor.Unknown

/-- The final step of `ensure_color_scheme_is_valid_for_color_system`:
`changed |= ensure_color_scheme_is_valid(scheme.values_mut(), |c| self.has(c))`
applied to the (possibly rebuilt) scheme, with `values_mut` modelled by
re-zipping the keys with the repaired value list. -/
def applyValidityPass (p : GlobalColorPalette) (r1 : Bool × ColorScheme) :
    Bool × ColorScheme :=
  (r1.1 || (ensure_color_scheme_is_valid (fun c => p.has c)
      (r1.2.map Prod.snd)).1,
    (r1.2.map Prod.fst).zip
      (ensure_color_scheme_is_valid (fun c => p.has c) (r1.2.map Prod.snd)).2)

/-- Model of
`GlobalColorPalette::ensure_color_scheme_is_valid_for_color_system`: if the
scheme's key sequence differs from the color list's names it is rebuilt
(marking it changed), and then the validity pass resets unresolvable entries. -/
def GlobalColorPalette.ensure_color_scheme_is_valid_for_color_system
    (p : GlobalColorPalette) (scheme : ColorScheme) (cs : ColorSystem) :
    Bool × ColorScheme :=
  if scheme.map Prod.fst = cs.names then applyValidityPass p (false, scheme)
  else applyValidityPass p (true, rebuildScheme cs.names scheme)

/-! ### Concrete instances used by witnesses and counterexamples -/

/-- A small puzzle-type instance: one axis with two layers, two twist
transforms that are mutually reverse and mutually opposite. -/
def puzT : PuzzleType :=
  { axes := [⟨2⟩]
    transforms := [⟨0, 1, some 1⟩, ⟨0, 0, some 0⟩] }

/-- A twist of `puzT`: innermost layer, first transform. -/
def twT : Twist := ⟨1, 0⟩

/-- A naming scheme with one user name and one user display name. -/
def nsA : NamingScheme := ⟨[(0, "U")], [(1, "D")]⟩

/-- The output of `iter_autonamed` on `nsA` with order `[0, 1]` and
candidates `["U", "A"]`. -/
def outA : List (Nat × String × String) := [(0, "U", "U"), (1, "A", "D")]

/-- A naming scheme with a duplicated user name. -/
def nsB : NamingScheme := ⟨[(0, "Red"), (1, "Red")], []⟩

/-- A naming scheme with no user names at all. -/
def nsEmpty : NamingScheme := ⟨[], []⟩

/-- A palette with a single builtin color. -/
def palW : GlobalColorPalette := ⟨[], [("white", ⟨(255, 255, 255)⟩)], []⟩

/-- An empty palette. -/
def palEmpty : GlobalColorPalette := ⟨[], [], []⟩

/-- A color system with three distinctly named colors. -/
def csG : ColorSystem := ⟨[⟨"Bottom", none⟩, ⟨"Top", none⟩, ⟨"Front", none⟩]⟩

/-- A color scheme whose keys disagree with `csG` in order and extent. -/
def schemeG : ColorScheme :=
  [("Top", DefaultColor.Single "white"), ("Bottom", DefaultColor.Single "nope")]

/-- A color system with a duplicated color name. -/
def csDup : ColorSystem := ⟨[⟨"Red", none⟩, ⟨"Red", none⟩]⟩

/-! ### C10: `has` agrees with `get` -/

/-- C10: for every palette state and `DefaultColor` reference, `has` returns
`true` exactly when `get` returns `Some` (the gradient shortcut in `has`
agrees with actually sampling the gradient in `get`); in particular `get` on
the unknown placeholder is always `None`, so unknown entries are never
resolvable. -/
theorem has_iff_get_isSome (p : GlobalColorPalette) (c : DefaultColor) :
    p.has c = (p.get c).isSome ∧ p.get DefaultColor.Unknown = none := by
  refine ⟨?_, rfl⟩
  cases c <;> simp [GlobalColorPalette.has, GlobalColorPalette.get]

/-! ### C3: `reverse_twist` -/

/-- C3: `reverse_twist` keeps the layer mask of its argument and replaces the
transform by the transform's `reverse` reference; under the precondition that
the per-transform reverse references are mutually inverse, reversing twice is
the identity. -/
theorem reverse_twist_spec (p : PuzzleType) (t : Twist)
    (ht : t.transform < p.transforms.length)
    (hinv : ∀ i, i < p.transforms.length →
      (p.transforms.getD i defaultTransformInfo).reverse < p.transforms.length ∧
      (p.transforms.getD ((p.transforms.getD i defaultTransformInfo).reverse)
        defaultTransformInfo).reverse = i) :
    (p.reverse_twist t).layers = t.layers ∧
    (p.reverse_twist t).transform =
      (p.transforms.getD t.transform defaultTransformInfo).reverse ∧
    p.reverse_twist (p.reverse_twist t) = t := by
  refine ⟨rfl, rfl, ?_⟩
  have h2 := (hinv t.transform ht).2
  unfold PuzzleType.reverse_twist
  simp only
  rw [h2]

/-- Witness for C3 at the concrete two-transform puzzle type. -/
theorem reverse_twist_spec_witness :
    (puzT.reverse_twist twT).layers = twT.layers ∧
    (puzT.reverse_twist twT).transform =
      (puzT.transforms.getD twT.transform defaultTransformInfo).reverse ∧
    puzT.reverse_twist (puzT.reverse_twist twT) = twT :=
  reverse_twist_spec puzT twT (by decide) (by decide)

/-! ### C1: `canonicalize_twist` picks the minimum representative -/

/-- C1: when the twist's transform has an opposite, `canonicalize_twist`
returns the minimum of the twist and the opposite twist with reversed layer
mask, under the total order in which the twist with the numerically smaller
layer mask sorts first and ties (equal layer masks) break by earliest
allocation order; without an opposite the twist is returned unchanged. -/
theorem canonicalize_twist_spec (p : PuzzleType) (t : Twist) :
    ((p.transforms.getD t.transform defaultTransformInfo).opposite = none →
      p.canonicalize_twist t = t) ∧
    (∀ o,
      (p.transforms.getD t.transform defaultTransformInfo).opposite = some o →
      (p.canonicalize_twist t = t ∨
        p.canonicalize_twist t = p.oppositeTwist t o) ∧
      twistSpecLE (p.canonicalize_twist t) t ∧
      twistSpecLE (p.canonicalize_twist t) (p.oppositeTwist t o)) := by
  constructor
  · intro h
    unfold PuzzleType.canonicalize_twist
    rw [h]
  · intro o h
    have hc : p.canonicalize_twist t = twistMin t (p.oppositeTwist t o) := by
      unfold PuzzleType.canonicalize_twist
      rw [h]
    rw [hc]
    set u := p.oppositeTwist t o with hu
    unfold twistMin
    by_cases hlt : Twist.lt u t
    · rw [if_pos hlt]
      refine ⟨Or.inr rfl, ?_, Or.inr ⟨rfl, Nat.le_refl _⟩⟩
      rcases hlt with h1 | ⟨h1, h2⟩
      · exact Or.inl h1
      · exact Or.inr ⟨h1, Nat.le_of_lt h2⟩
    · rw [if_neg hlt]
      refine ⟨Or.inl rfl, Or.inr ⟨rfl, Nat.le_refl _⟩, ?_⟩
      unfold Twist.lt at hlt
      unfold twistSpecLE
      omega

/-- Witness for C1 at the concrete puzzle type with an opposite pair. -/
theorem canonicalize_twist_spec_witness :
    puzT.canonicalize_twist twT = twT ∨
      puzT.canonicalize_twist twT = puzT.oppositeTwist twT 1 :=
  ((canonicalize_twist_spec puzT twT).2 1 (by decide)).1

/-! ### C2: the reversed layer mask -/

/-- A `w`-bit reversal stays below `2 ^ w`. -/
theorem revBits_lt (w m : Nat) : revBits w m < 2 ^ w := by
  induction w generalizing m with
  | zero => simp [revBits]
  | succ w ih =>
    show 2 ^ w * (m % 2) + revBits w (m / 2) < 2 ^ (w + 1)
    have h1 : m % 2 < 2 := Nat.mod_lt _ (by omega)
    have h2 := ih (m / 2)
    have h3 : 2 ^ w * (m % 2) ≤ 2 ^ w * 1 := Nat.mul_le_mul_left _ (by omega)
    rw [Nat.pow_succ]
    omega

/-- Bit `i` of the `w`-bit reversal of `m` is bit `w - 1 - i` of `m`. -/
theorem testBit_revBits (w m i : Nat) :
    (revBits w m).testBit i = (decide (i < w) && m.testBit (w - 1 - i)) := by
  induction w generalizing m i with
  | zero => simp [revBits]
  | succ w ih =>
    have hlt := revBits_lt w (m / 2)
    have key : (revBits (w + 1) m).testBit i =
        if i < w then (revBits w (m / 2)).testBit i
        else (m % 2).testBit (i - w) := by
      show (2 ^ w * (m % 2) + revBits w (m / 2)).testBit i = _
      exact Nat.testBit_mul_pow_two_add (m % 2) hlt i
    rw [key]
    by_cases h : i < w
    · rw [if_pos h, ih, Nat.testBit_div_two]
      have e1 : w - 1 - i + 1 = w + 1 - 1 - i := by omega
      rw [e1]
      have h1 : i < w + 1 := by omega
      simp [h, h1]
    · rw [if_neg h]
      by_cases h2 : i = w
      · subst h2
        have e0 : m % 2 % 2 = m % 2 := Nat.mod_eq_of_lt (Nat.mod_lt _ (by omega))
        simp [Nat.testBit_zero, e0, Nat.sub_self]
      · have h3 : ¬ i < w + 1 := by omega
        have h4 : m % 2 < 2 ^ (i - w) := by
          have h5 : m % 2 < 2 := Nat.mod_lt _ (by omega)
          calc m % 2 < 2 := h5
            _ = 2 ^ 1 := (Nat.pow_one 2).symm
            _ ≤ 2 ^ (i - w) := Nat.pow_le_pow_right (by omega) (by omega)
        simp [h3, Nat.testBit_lt_two_pow h4]

/-- C2 (amended): for a layer mask whose set bits all lie below the layer
count, and a layer count of at most `LayerMaskUint::BITS = 32`, the full-width
bit reversal shifted right by `32 - layer_count` is the mask with its bit
order reversed within the layer count: bit `i` of the input becomes bit
`layer_count - 1 - i` of the result, and all higher bits of the result are
clear. The bound by 32 (not merely the claimed 8-bit width) is forced by the
counterexample below. -/
theorem reversed_layer_mask_spec (m n : Nat) (hm : m < 2 ^ n) (hn : n ≤ 32) :
    (∀ i, i < n → (reversed_layer_mask m n).testBit (n - 1 - i) = m.testBit i) ∧
    (∀ i, n ≤ i → (reversed_layer_mask m n).testBit i = false) := by
  constructor
  · intro i hi
    unfold reversed_layer_mask
    rw [Nat.testBit_shiftRight, testBit_revBits]
    have e1 : 32 - n + (n - 1 - i) = 31 - i := by omega
    rw [e1]
    have e2 : 32 - 1 - (31 - i) = i := by omega
    rw [e2]
    have h1 : 31 - i < 32 := by omega
    simp [h1]
  · intro i hi
    unfold reversed_layer_mask
    rw [Nat.testBit_shiftRight, testBit_revBits]
    have h1 : ¬ 32 - n + i < 32 := by omega
    simp [h1]

/-- Witness for C2 at a two-layer mask. -/
theorem reversed_layer_mask_spec_witness :
    (reversed_layer_mask 1 2).testBit (2 - 1 - 0) = Nat.testBit 1 0 :=
  (reversed_layer_mask_spec 1 2 (by decide) (by decide)).1 0 (by decide)

/-- C2 counterexample: with 33 layers (a layer count that fits an 8-bit
width) the computed mask is not the within-layer-count bit reversal: bit 0 of
the input mask 1 should become bit 32 of the result, but does not. In Rust,
`LayerMaskUint::BITS - layer_count` underflows on `u32` there. -/
theorem reversed_layer_mask_counterexample :
    ¬ ((reversed_layer_mask 1 33).testBit (33 - 1 - 0) = Nat.testBit 1 0) := by
  decide

/-! ### Association-list lemmas -/

/-- A lookup fails exactly when the key is absent. -/
theorem alookup_eq_none {α β : Type} [DecidableEq α] (k : α) :
    ∀ (l : List (α × β)), alookup k l = none ↔ k ∉ l.map Prod.fst := by
  intro l
  induction l with
  | nil => simp [alookup]
  | cons e t ih =>
    cases e with
    | mk a b =>
      by_cases h : a = k
      · subst h
        simp [alookup]
      · simp [alookup, h, ih, Ne.symm h]

/-- A successful lookup names an entry of the list. -/
theorem alookup_mem {α β : Type} [DecidableEq α] {k : α} {v : β} :
    ∀ {l : List (α × β)}, alookup k l = some v → (k, v) ∈ l := by
  intro l
  induction l with
  | nil => intro h; simp [alookup] at h
  | cons e t ih =>
    intro h
    cases e with
    | mk a b =>
      by_cases ha : a = k
      · subst ha
        simp [alookup] at h
        subst h
        exact List.mem_cons_self _ _
      · simp only [alookup, if_neg ha] at h
        exact List.mem_cons_of_mem _ (ih h)

/-- With unique keys, membership determines the lookup. -/
theorem mem_alookup {α β : Type} [DecidableEq α] {k : α} {v : β} :
    ∀ {l : List (α × β)}, (l.map Prod.fst).Nodup → (k, v) ∈ l →
      alookup k l = some v := by
  intro l
  induction l with
  | nil => intro _ hm; simp at hm
  | cons e t ih =>
    intro hnd hm
    cases e with
    | mk a b =>
      rw [List.map_cons] at hnd
      have hnd2 := List.nodup_cons.mp hnd
      rcases List.mem_cons.mp hm with h | h
      · rw [Prod.mk.injEq] at h
        obtain ⟨h1, h2⟩ := h
        subst h1
        subst h2
        simp [alookup]
      · have hk : k ∈ t.map Prod.fst := by
          have h2 := List.mem_map_of_mem Prod.fst h
          simpa using h2
        have hne : ¬ a = k := fun hh => hnd2.1 (by rw [hh]; exact hk)
        simp [alookup, hne, ih hnd2.2 h]

/-- Looking up through a value-only map transformation. -/
theorem alookup_map_value {α β γ : Type} [DecidableEq α] (f : β → γ) (k : α) :
    ∀ (l : List (α × β)),
      alookup k (l.map (fun e => (e.1, f e.2))) = (alookup k l).map f := by
  intro l
  induction l with
  | nil => simp [alookup]
  | cons e t ih =>
    by_cases h : e.1 = k
    · simp [alookup, h]
    · simp [alookup, h, ih]

/-- Looking up in a list built by pairing each key with a function value. -/
theorem alookup_build {α β : Type} [DecidableEq α] (f : α → β) {k : α} :
    ∀ {names : List α}, k ∈ names →
      alookup k (names.map (fun n => (n, f n))) = some (f k) := by
  intro names
  induction names with
  | nil => intro h; simp at h
  | cons a t ih =>
    intro h
    by_cases ha : a = k
    · subst ha
      simp [alookup]
    · rcases List.mem_cons.mp h with h1 | h1
      · exact absurd h1.symm ha
      · simp [alookup, ha, ih h1]

/-- The value of a successful lookup occurs among the listed values. -/
theorem alookup_val_mem {α β : Type} [DecidableEq α] {k : α} {v : β}
    {l : List (α × β)} (h : alookup k l = some v) : v ∈ l.map Prod.snd := by
  have h1 := alookup_mem h
  have h2 := List.mem_map_of_mem Prod.snd h1
  simpa using h2

/-! ### Duplicate-warning counting -/

/-- Counting occurrences in the output of the duplicate-warning scan. -/
theorem warnDupGo_count (s : String) :
    ∀ (l seen : List String),
      (warnDupGo seen l).count s =
        if s ∈ seen then l.count s else l.count s - 1 := by
  intro l
  induction l with
  | nil => intro seen; simp [warnDupGo]
  | cons a t ih =>
    intro seen
    by_cases ha : a ∈ seen
    · simp only [warnDupGo, if_pos ha, List.count_cons, ih]
      by_cases hs : s ∈ seen
      · simp [hs]
      · have hne : (a == s) = false := by
          rw [beq_eq_false_iff_ne]
          exact fun hh => hs (hh ▸ ha)
        simp [hs, hne]
    · simp only [warnDupGo, if_neg ha, ih]
      by_cases hs : s ∈ seen
      · have hs2 : s ∈ a :: seen := List.mem_cons_of_mem _ hs
        have hne : (a == s) = false := by
          rw [beq_eq_false_iff_ne]
          exact fun hh => ha (hh ▸ hs)
        simp [hs, hs2, List.count_cons, hne]
      · by_cases hsa : s = a
        · subst hsa
          have hs2 : s ∈ s :: seen := List.mem_cons_self _ _
          simp [hs, hs2, List.count_cons]
        · have hs2 : s ∉ a :: seen := by
            rw [List.mem_cons]
            push_neg
            exact ⟨hsa, hs⟩
          have hne : (a == s) = false := by
            rw [beq_eq_false_iff_ne]
            exact fun hh => hsa hh.symm
          simp [hs, hs2, List.count_cons, hne]

/-- A name is warned once less often than it occurs. -/
theorem warn_count (s : String) (l : List String) :
    (warn_on_duplicates l).count s = l.count s - 1 := by
  rw [warn_on_duplicates, warnDupGo_count]
  simp

/-- Every duplicated name receives a warning. -/
theorem mem_warn_of_two_le {s : String} {l : List String}
    (h : 2 ≤ l.count s) : s ∈ warn_on_duplicates l := by
  have hc := warn_count s l
  have h2 : 0 < (warn_on_duplicates l).count s := by omega
  exact List.count_pos_iff.mp h2

/-- Two entries with distinct keys and the same value witness a duplicated
value. -/
theorem two_le_count_of_pair {i j : Nat} {s : String} :
    ∀ {n : List (Nat × String)}, (i, s) ∈ n → (j, s) ∈ n → i ≠ j →
      2 ≤ (n.map Prod.snd).count s := by
  intro n
  induction n with
  | nil => intro h; simp at h
  | cons e t ih =>
    intro hi hj hij
    rcases List.mem_cons.mp hi with h1 | h1 <;>
      rcases List.mem_cons.mp hj with h2 | h2
    · have h3 := h1.trans h2.symm
      rw [Prod.mk.injEq] at h3
      exact absurd h3.1 hij
    · subst h1
      have hs : s ∈ t.map Prod.snd := by
        have h3 := List.mem_map_of_mem Prod.snd h2
        simpa using h3
      have h3 : 0 < (t.map Prod.snd).count s := List.count_pos_iff.mpr hs
      have h4 : ((i, s) :: t).map Prod.snd = s :: t.map Prod.snd := by simp
      rw [h4, List.count_cons]
      simp only [beq_self_eq_true, if_true]
      omega
    · subst h2
      have hs : s ∈ t.map Prod.snd := by
        have h3 := List.mem_map_of_mem Prod.snd h1
        simpa using h3
      have h3 : 0 < (t.map Prod.snd).count s := List.count_pos_iff.mpr hs
      have h4 : ((j, s) :: t).map Prod.snd = s :: t.map Prod.snd := by simp
      rw [h4, List.count_cons]
      simp only [beq_self_eq_true, if_true]
      omega
    · have h3 := ih h1 h2 hij
      rw [List.map_cons, List.count_cons]
      exact le_trans h3 (Nat.le_add_right _ _)

/-! ### Structure of the autonaming loop -/

/-- The assignment loop fails exactly when the candidates run out while an
unnamed ID remains. -/
theorem autonamedList_eq_none (n d : List (Nat × String)) :
    ∀ (order : List Nat) (avail : List String),
      autonamedList n d order avail = none ↔
        avail.length < unnamedCountIn n order := by
  intro order
  induction order with
  | nil => intro avail; simp [autonamedList, unnamedCountIn]
  | cons id0 rest ih =>
    intro avail
    cases hl : alookup id0 n with
    | some s =>
      simp only [autonamedList, hl, Option.map_eq_none']
      rw [ih]
      unfold unnamedCountIn
      simp [List.filter_cons, hl]
    | none =>
      cases avail with
      | nil =>
        simp only [autonamedList, hl]
        unfold unnamedCountIn
        simp [List.filter_cons, hl]
      | cons a avail2 =>
        simp only [autonamedList, hl, Option.map_eq_none']
        rw [ih]
        unfold unnamedCountIn
        simp [List.filter_cons, hl]

/-- Characterization of a successful assignment: IDs come back in order,
named IDs keep their user name, unnamed IDs take the available candidates in
sequence, and the display name falls back to the resolved name. -/
theorem autonamedList_spec (n d : List (Nat × String)) :
    ∀ (order : List Nat) (avail : List String)
      (l : List (Nat × String × String)),
      autonamedList n d order avail = some l →
      l.map Prod.fst = order ∧
      ∀ k id e, order[k]? = some id → l[k]? = some e →
        (∀ s, alookup id n = some s → e.2.1 = s) ∧
        (alookup id n = none →
          avail[unnamedCountIn n (order.take k)]? = some e.2.1) ∧
        e.2.2 = (alookup id d).getD e.2.1 := by
  intro order
  induction order with
  | nil =>
    intro avail l h
    simp [autonamedList] at h
    subst h
    refine ⟨rfl, ?_⟩
    intro k id e h1 h2
    simp at h1
  | cons id0 rest ih =>
    intro avail l h
    cases hl : alookup id0 n with
    | some s0 =>
      simp only [autonamedList, hl, Option.map_eq_some'] at h
      obtain ⟨l2, hrec, hl2⟩ := h
      subst hl2
      obtain ⟨ihmap, ihspec⟩ := ih avail l2 hrec
      refine ⟨by simp [ihmap], ?_⟩
      intro k id e hk he
      cases k with
      | zero =>
        simp at hk he
        subst hk
        subst he
        refine ⟨?_, ?_, rfl⟩
        · intro s hs
          rw [hl] at hs
          exact Option.some.inj hs
        · intro hnone
          rw [hl] at hnone
          cases hnone
      | succ k =>
        simp only [List.getElem?_cons_succ] at hk he
        have h3 := ihspec k id e hk he
        refine ⟨h3.1, ?_, h3.2.2⟩
        intro hid
        have h4 := h3.2.1 hid
        have e5 : unnamedCountIn n ((id0 :: rest).take (k + 1)) =
            unnamedCountIn n (rest.take k) := by
          simp [unnamedCountIn, List.take_succ_cons, List.filter_cons, hl]
        rw [e5]
        exact h4
    | none =>
      cases avail with
      | nil => simp [autonamedList, hl] at h
      | cons a avail2 =>
        simp only [autonamedList, hl, Option.map_eq_some'] at h
        obtain ⟨l2, hrec, hl2⟩ := h
        subst hl2
        obtain ⟨ihmap, ihspec⟩ := ih avail2 l2 hrec
        refine ⟨by simp [ihmap], ?_⟩
        intro k id e hk he
        cases k with
        | zero =>
          simp at hk he
          subst hk
          subst he
          refine ⟨?_, ?_, rfl⟩
          · intro s hs
            rw [hl] at hs
            cases hs
          · intro _
            simp [unnamedCountIn]
        | succ k =>
          simp only [List.getElem?_cons_succ] at hk he
          have h3 := ihspec k id e hk he
          refine ⟨h3.1, ?_, h3.2.2⟩
          intro hid
          have h4 := h3.2.1 hid
          have e5 : unnamedCountIn n ((id0 :: rest).take (k + 1)) =
              unnamedCountIn n (rest.take k) + 1 := by
            simp [unnamedCountIn, List.take_succ_cons, List.filter_cons, hl]
          rw [e5]
          simpa using h4

/-- An unnamed occurrence strictly increases the count of unnamed IDs seen in
any longer order position. -/
theorem unnamedCount_take_lt (n : List (Nat × String)) (order : List Nat)
    {k k2 i : Nat} (hk : order[k]? = some i)
    (hni : alookup i n = none) (hlt : k < k2) :
    unnamedCountIn n (order.take k) < unnamedCountIn n (order.take k2) := by
  have h1 : unnamedCountIn n (order.take (k + 1)) =
      unnamedCountIn n (order.take k) + 1 := by
    unfold unnamedCountIn
    rw [List.take_succ, hk]
    simp [List.filter_append, List.filter_cons, hni]
  have h2 : unnamedCountIn n (order.take (k + 1)) ≤
      unnamedCountIn n (order.take k2) := by
    have e1 : order.take (k + 1) = (order.take k2).take (k + 1) := by
      rw [List.take_take]
      congr 1
      omega
    have hsub : List.Sublist (order.take (k + 1)) (order.take k2) := by
      rw [e1]
      exact List.take_sublist _ _
    unfold unnamedCountIn
    exact List.Sublist.length_le (List.Sublist.filter _ hsub)
  omega

/-! ### C4: what `iter_autonamed` yields -/

/-- C4: for every ID in the supplied canonical order, `iter_autonamed` yields
the user-supplied name if one is set, else the next unused candidate of the
autoname sequence filtered to skip names claimed by user-supplied names (so
no autogenerated name equals a user-supplied name); and it yields the display
name if one is set, else the resolved name. -/
theorem iter_autonamed_resolves (ns : NamingScheme) (order : List Nat)
    (autonames : List String) (l : List (Nat × String × String))
    (hres : (iter_autonamed ns order autonames).snd = some l)
    (k id : Nat) (e : Nat × String × String)
    (horder : order[k]? = some id) (hl : l[k]? = some e) :
    l.map Prod.fst = order ∧
    (∀ s, alookup id ns.names = some s → e.2.1 = s) ∧
    (alookup id ns.names = none →
      (availNames ns autonames)[unnamedCountIn ns.names (order.take k)]? =
          some e.2.1 ∧
      e.2.1 ∉ ns.names.map Prod.snd) ∧
    e.2.2 = (alookup id ns.displayNames).getD e.2.1 := by
  have h := autonamedList_spec ns.names ns.displayNames order
      (availNames ns autonames) l hres
  have h3 := h.2 k id e horder hl
  refine ⟨h.1, h3.1, ?_, h3.2.2⟩
  intro hid
  have h4 := h3.2.1 hid
  refine ⟨h4, ?_⟩
  have h5 : e.2.1 ∈ availNames ns autonames := List.getElem?_mem h4
  have h6 := List.of_mem_filter h5
  simpa using h6

/-- Witness for C4: the unnamed ID 1 receives the first unused candidate and
keeps its user display name. -/
theorem iter_autonamed_resolves_witness :
    ("D" : String) = (alookup 1 nsA.displayNames).getD "A" :=
  (iter_autonamed_resolves nsA [0, 1] ["U", "A"] outA (by decide) 1 1
      (1, "A", "D") (by decide) (by decide)).2.2.2

/-! ### C5: shared names are warned (amended) -/

/-- C5 (amended): provided the autoname candidate sequence has no duplicate
names, whenever two occurrences of distinct IDs in the order resolve to the
same name, that name received a duplicate warning. The no-duplicate proviso
on the candidates is forced by the counterexample below. -/
theorem shared_name_was_warned (ns : NamingScheme) (order : List Nat)
    (autonames : List String) (l : List (Nat × String × String))
    (hauto : autonames.Nodup)
    (hres : (iter_autonamed ns order autonames).snd = some l)
    (k k2 i j : Nat) (e e2 : Nat × String × String)
    (hki : order[k]? = some i) (hkj : order[k2]? = some j) (hij : i ≠ j)
    (hle : l[k]? = some e) (hle2 : l[k2]? = some e2)
    (heq : e.2.1 = e2.2.1) :
    e.2.1 ∈ (iter_autonamed ns order autonames).fst := by
  have hspec := autonamedList_spec ns.names ns.displayNames order
      (availNames ns autonames) l hres
  have h1 := hspec.2 k i e hki hle
  have h2 := hspec.2 k2 j e2 hkj hle2
  show e.2.1 ∈ warn_on_duplicates (ns.names.map Prod.snd) ++
      warn_on_duplicates (ns.displayNames.map Prod.snd)
  cases hni : alookup i ns.names with
  | some s =>
    cases hnj : alookup j ns.names with
    | some s2 =>
      have hes : e.2.1 = s := h1.1 s hni
      have hes2 : e2.2.1 = s2 := h2.1 s2 hnj
      have hss : s = s2 := by rw [← hes, heq, hes2]
      have hm1 : (i, s) ∈ ns.names := alookup_mem hni
      have hm2 : (j, s) ∈ ns.names := by
        rw [hss]
        exact alookup_mem hnj
      have hcount := two_le_count_of_pair hm1 hm2 hij
      rw [hes]
      exact List.mem_append_left _ (mem_warn_of_two_le hcount)
    | none =>
      exfalso
      have h4 := h2.2.1 hnj
      have h5 : e2.2.1 ∈ autonames.filter
          (fun t => decide (t ∉ ns.names.map Prod.snd)) := List.getElem?_mem h4
      have h6a := List.of_mem_filter h5
      have h6 : e2.2.1 ∉ ns.names.map Prod.snd := by
        simp only [decide_eq_true_eq] at h6a
        exact h6a
      have hes : e.2.1 = s := h1.1 s hni
      have h7 : s ∈ ns.names.map Prod.snd := alookup_val_mem hni
      rw [hes] at heq
      rw [← heq] at h6
      exact h6 h7
  | none =>
    cases hnj : alookup j ns.names with
    | some s2 =>
      exfalso
      have h4 := h1.2.1 hni
      have h5 : e.2.1 ∈ autonames.filter
          (fun t => decide (t ∉ ns.names.map Prod.snd)) := List.getElem?_mem h4
      have h6a := List.of_mem_filter h5
      have h6 : e.2.1 ∉ ns.names.map Prod.snd := by
        simp only [decide_eq_true_eq] at h6a
        exact h6a
      have h7 : s2 ∈ ns.names.map Prod.snd := alookup_val_mem hnj
      have hes2 : e2.2.1 = s2 := h2.1 s2 hnj
      rw [heq, hes2] at h6
      exact h6 h7
    | none =>
      exfalso
      have h4 := h1.2.1 hni
      have h5 := h2.2.1 hnj
      have hnda : (availNames ns autonames).Nodup := List.Nodup.filter _ hauto
      rcases Nat.lt_or_ge k k2 with hlt | hge
      · have hcl := unnamedCount_take_lt ns.names order hki hni hlt
        obtain ⟨hlen, _⟩ := List.getElem?_eq_some_iff.mp h4
        have heq2 : (availNames ns autonames)[unnamedCountIn ns.names
              (order.take k)]? =
            (availNames ns autonames)[unnamedCountIn ns.names
              (order.take k2)]? := by
          rw [h4, h5, heq]
        have := List.getElem?_inj hlen hnda heq2
        omega
      · have hkk : k ≠ k2 := by
          intro hh
          subst hh
          rw [hki] at hkj
          exact hij (Option.some.inj hkj)
        have hlt2 : k2 < k := by omega
        have hcl := unnamedCount_take_lt ns.names order hkj hnj hlt2
        obtain ⟨hlen, _⟩ := List.getElem?_eq_some_iff.mp h5
        have heq2 : (availNames ns autonames)[unnamedCountIn ns.names
              (order.take k2)]? =
            (availNames ns autonames)[unnamedCountIn ns.names
              (order.take k)]? := by
          rw [h4, h5, heq]
        have := List.getElem?_inj hlen hnda heq2
        omega

/-- Witness for C5: the duplicated user name "Red" on the two distinct IDs is
found among the emitted warnings. -/
theorem shared_name_was_warned_witness :
    (("Red" : String) ∈ (iter_autonamed nsB [0, 1] []).fst) :=
  shared_name_was_warned nsB [0, 1] [] [(0, "Red", "Red"), (1, "Red", "Red")]
    (by decide) (by decide) 0 1 0 1 (0, "Red", "Red") (1, "Red", "Red")
    (by decide) (by decide) (by decide) (by decide) (by decide) (by decide)

/-- C5 counterexample: with the duplicated candidate sequence
`["A", "A"]` and no user names, the two distinct IDs 0 and 1 both resolve to
the name "A" while no warning at all is emitted. -/
theorem shared_name_counterexample :
    (iter_autonamed nsEmpty [0, 1] ["A", "A"]).snd =
        some [(0, "A", "A"), (1, "A", "A")] ∧
      (iter_autonamed nsEmpty [0, 1] ["A", "A"]).fst = [] ∧
      (0 : Nat) ≠ 1 := by
  decide

/-! ### C6: failure happens exactly on candidate exhaustion -/

/-- C6: `iter_autonamed` fails (the `expect` panic, modelled as `none` and so
distinguished from success and from warnings) if and only if the filtered
candidate sequence is exhausted while an occurrence of an ID without a
user-supplied name remains in the order; no other input makes it fail. -/
theorem iter_autonamed_fails_iff (ns : NamingScheme) (order : List Nat)
    (autonames : List String) :
    (iter_autonamed ns order autonames).snd = none ↔
      (availNames ns autonames).length < unnamedCountIn ns.names order :=
  autonamedList_eq_none ns.names ns.displayNames order
    (availNames ns autonames)

/-! ### C7: duplicate warnings are non-fatal and precise -/

/-- C7: user names and user display names are scanned independently before
assignment; a name occurring on exactly two distinct IDs (and not among the
display names) is warned exactly once; every duplicated user name and every
duplicated user display name is warned; a display name duplicated exactly
twice (and not among the user names) is likewise warned exactly once; and
construction proceeds with both IDs retaining the duplicated name. -/
theorem duplicate_name_warning (ns : NamingScheme) (order : List Nat)
    (autonames : List String) (s : String) (i j : Nat)
    (hkeys : (ns.names.map Prod.fst).Nodup)
    (hi : (i, s) ∈ ns.names) (hj : (j, s) ∈ ns.names) (hij : i ≠ j)
    (hcount : (ns.names.map Prod.snd).count s = 2)
    (hdisp : s ∉ ns.displayNames.map Prod.snd) :
    (iter_autonamed ns order autonames).fst.count s = 1 ∧
    (∀ t, 2 ≤ (ns.names.map Prod.snd).count t →
      t ∈ (iter_autonamed ns order autonames).fst) ∧
    (∀ t, 2 ≤ (ns.displayNames.map Prod.snd).count t →
      t ∈ (iter_autonamed ns order autonames).fst) ∧
    (∀ t, (ns.displayNames.map Prod.snd).count t = 2 →
      t ∉ ns.names.map Prod.snd →
      (iter_autonamed ns order autonames).fst.count t = 1) ∧
    (∀ (l : List (Nat × String × String)) (k : Nat)
      (e : Nat × String × String) (id : Nat),
      (iter_autonamed ns order autonames).snd = some l →
      order[k]? = some id → l[k]? = some e → (id = i ∨ id = j) →
      e.2.1 = s) := by
  refine ⟨?_, ?_, ?_, ?_, ?_⟩
  · show (warn_on_duplicates (ns.names.map Prod.snd) ++
        warn_on_duplicates (ns.displayNames.map Prod.snd)).count s = 1
    rw [List.count_append, warn_count, warn_count, hcount]
    rw [List.count_eq_zero.mpr hdisp]
  · intro t ht
    exact List.mem_append_left _ (mem_warn_of_two_le ht)
  · intro t ht
    exact List.mem_append_right _ (mem_warn_of_two_le ht)
  · intro t htc htn
    show (warn_on_duplicates (ns.names.map Prod.snd) ++
        warn_on_duplicates (ns.displayNames.map Prod.snd)).count t = 1
    rw [List.count_append, warn_count, warn_count, htc]
    rw [List.count_eq_zero.mpr htn]
  · intro l k e id hres hk he hid
    have hspec := autonamedList_spec ns.names ns.displayNames order
        (availNames ns autonames) l hres
    have h1 := (hspec.2 k id e hk he).1
    rcases hid with h | h
    · subst h
      exact h1 s (mem_alookup hkeys hi)
    · subst h
      exact h1 s (mem_alookup hkeys hj)

/-- Witness for C7: the scheme with "Red" on both IDs produces exactly one
warning for "Red". -/
theorem duplicate_name_warning_witness :
    (iter_autonamed nsB [0, 1] []).fst.count "Red" = 1 :=
  (duplicate_name_warning nsB [0, 1] [] "Red" 0 1 (by decide) (by decide)
    (by decide) (by decide) (by decide) (by decide)).1

/-! ### Color-scheme rebuild lemmas -/

/-- Removal fails exactly when the key is absent. -/
theorem swapRemoveEntry_eq_none (k : String) :
    ∀ (m : ColorScheme), swapRemoveEntry k m = none ↔ alookup k m = none := by
  intro m
  induction m with
  | nil => simp [swapRemoveEntry, alookup]
  | cons e t ih =>
    by_cases h : e.1 = k
    · simp [swapRemoveEntry, alookup, h]
    · simp [swapRemoveEntry, alookup, h, ih]

/-- What a successful removal returns: the entry under the key, and a rest
whose keys are the old keys with this one erased and whose other lookups are
unchanged. -/
theorem swapRemoveEntry_some (k : String) :
    ∀ (m : ColorScheme) (r : (String × DefaultColor) × ColorScheme),
      swapRemoveEntry k m = some r →
      r.1.1 = k ∧ alookup k m = some r.1.2 ∧
      r.2.map Prod.fst = (m.map Prod.fst).erase k ∧
      (∀ n2, n2 ≠ k → alookup n2 r.2 = alookup n2 m) := by
  intro m
  induction m with
  | nil => intro r h; simp [swapRemoveEntry] at h
  | cons e t ih =>
    intro r h
    by_cases he : e.1 = k
    · simp only [swapRemoveEntry, if_pos he] at h
      have hr : r = (e, t) := (Option.some.inj h).symm
      subst hr
      refine ⟨he, ?_, ?_, ?_⟩
      · simp [alookup, he]
      · rw [List.map_cons, he, List.erase_cons_head]
      · intro n2 hn2
        have hne : ¬ e.1 = n2 := by rw [he]; exact fun hh => hn2 hh.symm
        simp [alookup, hne]
    · simp only [swapRemoveEntry, if_neg he, Option.map_eq_some'] at h
      obtain ⟨r2, hrec, hr⟩ := h
      subst hr
      obtain ⟨ih1, ih2, ih3, ih4⟩ := ih r2 hrec
      refine ⟨ih1, ?_, ?_, ?_⟩
      · simp [alookup, he, ih2]
      · have hbe : ¬ (e.1 == k) = true := by
          simp only [beq_iff_eq]
          exact he
        rw [List.map_cons, List.map_cons, List.erase_cons_tail hbe, ih3]
      · intro n2 hn2
        by_cases hen : e.1 = n2
        · simp [alookup, hen]
        · simp [alookup, hen, ih4 n2 hn2]

/-- With unique scheme keys and unique requested names, the re-pairing pass
pairs each name with its old entry where one exists and the unknown
placeholder otherwise. -/
theorem rebuildPairs_eq :
    ∀ (names : List String) (s : ColorScheme),
      (s.map Prod.fst).Nodup → names.Nodup →
      rebuildPairs s names =
        names.map (fun n2 =>
          (n2, (alookup n2 s).getD DefaultColor.Unknown)) := by
  intro names
  induction names with
  | nil => intro s _ _; rfl
  | cons n0 rest ih =>
    intro s hs hn
    have hn2 := List.nodup_cons.mp hn
    cases hsw : swapRemoveEntry n0 s with
    | none =>
      have hnone : alookup n0 s = none := (swapRemoveEntry_eq_none n0 s).mp hsw
      simp only [rebuildPairs, hsw]
      rw [List.map_cons, hnone]
      rw [ih s hs hn2.2]
      rfl
    | some r =>
      obtain ⟨h1, h2, h3, h4⟩ := swapRemoveEntry_some n0 s r hsw
      simp only [rebuildPairs, hsw]
      rw [List.map_cons, h2]
      simp only [Option.getD_some]
      have hhead : r.1 = (n0, r.1.2) := by
        rw [← h1]
      rw [← hhead]
      have hs2 : (r.2.map Prod.fst).Nodup := by
        rw [h3]
        exact hs.erase _
      rw [ih r.2 hs2 hn2.2]
      congr 1
      apply List.map_congr_left
      intro x hx
      have hxk : x ≠ n0 := fun hh => hn2.1 (by rw [← hh]; exact hx)
      rw [h4 x hxk]

/-- Collecting pairs with pairwise-distinct keys into an `IndexMap` keeps
them unchanged. -/
theorem collect_go_nodup :
    ∀ (pairs acc : List (String × DefaultColor)),
      ((acc ++ pairs).map Prod.fst).Nodup →
      pairs.foldl (fun a e => indexMapInsert a e.1 e.2) acc = acc ++ pairs := by
  intro pairs
  induction pairs with
  | nil => intro acc _; simp
  | cons e t ih =>
    intro acc hnd
    rw [List.foldl_cons]
    have hnd2 : (acc.map Prod.fst).Nodup ∧ ((e :: t).map Prod.fst).Nodup ∧
        (acc.map Prod.fst).Disjoint ((e :: t).map Prod.fst) := by
      rw [List.map_append] at hnd
      exact List.nodup_append.mp hnd
    have hnotin : e.1 ∉ acc.map Prod.fst := by
      intro hin
      exact hnd2.2.2 hin (by simp)
    have hins : indexMapInsert acc e.1 e.2 = acc ++ [e] := by
      rw [indexMapInsert, if_neg hnotin]
    rw [hins]
    have h2 : acc ++ e :: t = (acc ++ [e]) ++ t := by simp
    rw [h2]
    apply ih
    rw [← h2]
    exact hnd

/-- Collecting a pairwise-distinct-keyed pair list is the identity. -/
theorem collectIndexMap_self (pairs : List (String × DefaultColor))
    (h : (pairs.map Prod.fst).Nodup) : collectIndexMap pairs = pairs := by
  have h2 := collect_go_nodup pairs [] (by simpa using h)
  simpa using h2

/-- Re-zipping the keys with the repaired values is a map over the entries. -/
theorem ensure_zip (valid : DefaultColor → Bool) :
    ∀ (l : ColorScheme),
      (l.map Prod.fst).zip
          (ensure_color_scheme_is_valid valid (l.map Prod.snd)).2 =
        l.map (fun e =>
          (e.1, if valid e.2 then e.2 else DefaultColor.Unknown)) := by
  intro l
  induction l with
  | nil => rfl
  | cons e t ih =>
    have ih2 := ih
    simp only [ensure_color_scheme_is_valid, List.map_cons] at ih2 ⊢
    rw [List.zip_cons_cons, ih2]

/-- A list map is the identity exactly when it fixes every element. -/
theorem map_self_iff {α : Type} (f : α → α) :
    ∀ (l : List α), l.map f = l ↔ ∀ x ∈ l, f x = x := by
  intro l
  induction l with
  | nil => simp
  | cons a t ih =>
    rw [List.map_cons]
    constructor
    · intro h x hx
      have h2 := List.cons.injEq (f a) (t.map f) a t ▸ h
      rw [List.cons.injEq] at h
      rcases List.mem_cons.mp hx with h3 | h3
      · rw [h3]
        exact h.1
      · exact (ih.mp h.2) x h3
    · intro h
      rw [h a (List.mem_cons_self _ _),
        ih.mpr fun x hx => h x (List.mem_cons_of_mem _ hx)]

/-- Testing all second components is testing the mapped value list. -/
theorem any_map_snd {α β : Type} (p : β → Bool) :
    ∀ (l : List (α × β)),
      (l.map Prod.snd).any p = l.any (fun e => p e.2) := by
  intro l
  induction l with
  | nil => rfl
  | cons e t ih => simp [List.any_cons, ih]

/-- Closed form of the validity pass. -/
theorem applyValidityPass_eq (p : GlobalColorPalette) (b : Bool)
    (s : ColorScheme) :
    applyValidityPass p (b, s) =
      (b || s.any (fun e =>
          !p.has e.2 && decide (e.2 ≠ DefaultColor.Unknown)),
        s.map (fun e => (e.1, fixColor p e.2))) := by
  unfold applyValidityPass
  congr 1
  · simp only [ensure_color_scheme_is_valid]
    rw [any_map_snd]
  · rw [ensure_zip]
    rfl

/-- Closed form of the repair when the keys already match the names. -/
theorem ensure_for_cs_eq_match (p : GlobalColorPalette) (scheme : ColorScheme)
    (cs : ColorSystem) (hm : scheme.map Prod.fst = cs.names) :
    p.ensure_color_scheme_is_valid_for_color_system scheme cs =
      (scheme.any (fun e =>
          !p.has e.2 && decide (e.2 ≠ DefaultColor.Unknown)),
        scheme.map (fun e => (e.1, fixColor p e.2))) := by
  unfold GlobalColorPalette.ensure_color_scheme_is_valid_for_color_system
  rw [if_pos hm, applyValidityPass_eq]
  simp

/-- Closed form of the repair when the keys disagree with the names. -/
theorem ensure_for_cs_eq_mismatch (p : GlobalColorPalette)
    (scheme : ColorScheme) (cs : ColorSystem)
    (hkeys : (scheme.map Prod.fst).Nodup) (hnames : cs.names.Nodup)
    (hne : scheme.map Prod.fst ≠ cs.names) :
    p.ensure_color_scheme_is_valid_for_color_system scheme cs =
      (true, cs.names.map (fun n2 =>
        (n2, fixColor p ((alookup n2 scheme).getD DefaultColor.Unknown)))) := by
  unfold GlobalColorPalette.ensure_color_scheme_is_valid_for_color_system
  rw [if_neg hne, applyValidityPass_eq]
  have hrb : rebuildScheme cs.names scheme =
      cs.names.map (fun n2 =>
        (n2, (alookup n2 scheme).getD DefaultColor.Unknown)) := by
    unfold rebuildScheme
    rw [rebuildPairs_eq cs.names scheme hkeys hnames]
    apply collectIndexMap_self
    have hk : ((cs.names.map (fun n2 =>
        (n2, (alookup n2 scheme).getD DefaultColor.Unknown))).map Prod.fst) =
        cs.names := by
      rw [List.map_map]
      have hc : (Prod.fst ∘ fun n2 =>
          (n2, (alookup n2 scheme).getD DefaultColor.Unknown)) = id := rfl
      rw [hc, List.map_id]
    rw [hk]
    exact hnames
  rw [hrb, List.map_map]
  simp only [Bool.true_or]
  rfl

/-! ### C8: scheme repair against the color system (amended) -/

/-- C8 (amended): provided the color system's color names are pairwise
distinct (a proviso forced by the counterexample below; the scheme, an
`IndexMap`, has pairwise-distinct keys by invariant), when the scheme's key
sequence differs from the color names the scheme is rebuilt with exactly
those names as keys in list order, keeping the existing entry for every name
that still matches and filling every gap with the unknown placeholder;
entries the palette cannot resolve are reset to unknown; and the call returns
`true` exactly when the scheme was modified. -/
theorem ensure_scheme_for_system_spec (p : GlobalColorPalette)
    (scheme : ColorScheme) (cs : ColorSystem)
    (hkeys : (scheme.map Prod.fst).Nodup) (hnames : cs.names.Nodup) :
    (scheme.map Prod.fst ≠ cs.names →
      (p.ensure_color_scheme_is_valid_for_color_system scheme cs).2 =
        cs.names.map (fun n2 =>
          (n2, fixColor p ((alookup n2 scheme).getD DefaultColor.Unknown)))) ∧
    (scheme.map Prod.fst = cs.names →
      (p.ensure_color_scheme_is_valid_for_color_system scheme cs).2 =
        scheme.map (fun e => (e.1, fixColor p e.2))) ∧
    ((p.ensure_color_scheme_is_valid_for_color_system scheme cs).1 = true ↔
      (p.ensure_color_scheme_is_valid_for_color_system scheme cs).2 ≠
        scheme) := by
  by_cases hm : scheme.map Prod.fst = cs.names
  · rw [ensure_for_cs_eq_match p scheme cs hm]
    refine ⟨fun hne => absurd hm hne, fun _ => rfl, ?_⟩
    simp only [Bool.false_or]
    constructor
    · intro hany hcontra
      rw [map_self_iff] at hcontra
      rw [List.any_eq_true] at hany
      obtain ⟨e0, he0, hbad⟩ := hany
      have hfix : fixColor p e0.2 = e0.2 := congrArg Prod.snd (hcontra e0 he0)
      simp only [Bool.and_eq_true, Bool.not_eq_true', decide_eq_true_eq]
        at hbad
      obtain ⟨hb1, hb2⟩ := hbad
      have hv : ¬ (p.has e0.2 = true) := by simp [hb1]
      rw [fixColor, if_neg hv] at hfix
      exact hb2 hfix.symm
    · intro hne
      by_contra hc
      have hfalse := Bool.eq_false_iff.mpr hc
      rw [List.any_eq_false] at hfalse
      apply hne
      rw [map_self_iff]
      intro e he
      have hnb := hfalse e he
      simp only [Bool.and_eq_true, Bool.not_eq_true', decide_eq_true_eq,
        not_and, not_not] at hnb
      by_cases hv : p.has e.2 = true
      · rw [fixColor, if_pos hv]
      · have hf : p.has e.2 = false := Bool.eq_false_iff.mpr hv
        have he2 := hnb hf
        rw [fixColor, if_neg hv, ← he2]
  · rw [ensure_for_cs_eq_mismatch p scheme cs hkeys hnames hm]
    refine ⟨fun _ => rfl, fun hmm => absurd hmm hm, ?_⟩
    simp only
    constructor
    · intro _ hcontra
      apply hm
      have hfst := congrArg (List.map Prod.fst) hcontra
      rw [List.map_map] at hfst
      have hc2 : (Prod.fst ∘ fun n2 =>
          (n2, fixColor p
            ((alookup n2 scheme).getD DefaultColor.Unknown))) = id := rfl
      rw [hc2, List.map_id] at hfst
      exact hfst.symm
    · intro _
      trivial

/-- Witness for C8 at a concrete palette, scheme and color system whose keys
disagree. -/
theorem ensure_scheme_for_system_spec_witness :
    (palW.ensure_color_scheme_is_valid_for_color_system schemeG csG).2 =
      csG.names.map (fun n2 =>
        (n2, fixColor palW ((alookup n2 schemeG).getD DefaultColor.Unknown))) :=
  (ensure_scheme_for_system_spec palW schemeG csG (by decide) (by decide)).1
    (by decide)

/-- C8 counterexample: with the duplicated color name "Red" the rebuilt
scheme's keys cannot equal the color names in list order (the `IndexMap`
collapses the duplicate), so the claim as stated fails. -/
theorem ensure_scheme_keys_counterexample :
    (palEmpty.ensure_color_scheme_is_valid_for_color_system [] csDup).2.map
        Prod.fst ≠ csDup.names := by
  decide

/-! ### C9: repair idempotence (amended) -/

/-- C9 (amended): provided the color system's color names are pairwise
distinct (a proviso forced by the counterexample below), running the repair
twice in a row with no intervening change to scheme, color system or palette
reports no modification on the second run. -/
theorem ensure_scheme_repair_idempotent (p : GlobalColorPalette)
    (scheme : ColorScheme) (cs : ColorSystem)
    (hkeys : (scheme.map Prod.fst).Nodup) (hnames : cs.names.Nodup) :
    (p.ensure_color_scheme_is_valid_for_color_system
      (p.ensure_color_scheme_is_valid_for_color_system scheme cs).2 cs).1 =
      false := by
  by_cases hm : scheme.map Prod.fst = cs.names
  · have hs1 : (p.ensure_color_scheme_is_valid_for_color_system scheme cs).2 =
        scheme.map (fun e => (e.1, fixColor p e.2)) := by
      rw [ensure_for_cs_eq_match p scheme cs hm]
    rw [hs1]
    have hk2 : ((scheme.map (fun e => (e.1, fixColor p e.2))).map Prod.fst) =
        cs.names := by
      rw [List.map_map]
      have hc : (Prod.fst ∘ fun e : String × DefaultColor =>
          (e.1, fixColor p e.2)) = Prod.fst := rfl
      rw [hc, hm]
    rw [ensure_for_cs_eq_match p _ cs hk2]
    show (scheme.map fun e => (e.1, fixColor p e.2)).any
        (fun e => !p.has e.2 && decide (e.2 ≠ DefaultColor.Unknown)) = false
    rw [List.any_eq_false]
    intro e he
    rw [List.mem_map] at he
    obtain ⟨e0, he0, rfl⟩ := he
    by_cases hv : p.has e0.2 = true
    · simp [fixColor, hv]
    · have hf : p.has e0.2 = false := Bool.eq_false_iff.mpr hv
      simp [fixColor, hf]
  · have hs1 : (p.ensure_color_scheme_is_valid_for_color_system scheme cs).2 =
        cs.names.map (fun n2 =>
          (n2, fixColor p ((alookup n2 scheme).getD DefaultColor.Unknown))) := by
      rw [ensure_for_cs_eq_mismatch p scheme cs hkeys hnames hm]
    rw [hs1]
    have hk2 : ((cs.names.map (fun n2 =>
        (n2, fixColor p
          ((alookup n2 scheme).getD DefaultColor.Unknown)))).map Prod.fst) =
        cs.names := by
      rw [List.map_map]
      have hc : (Prod.fst ∘ fun n2 =>
          (n2, fixColor p
            ((alookup n2 scheme).getD DefaultColor.Unknown))) = id := rfl
      rw [hc, List.map_id]
    rw [ensure_for_cs_eq_match p _ cs hk2]
    show (cs.names.map fun n2 =>
        (n2, fixColor p ((alookup n2 scheme).getD DefaultColor.Unknown))).any
        (fun e => !p.has e.2 && decide (e.2 ≠ DefaultColor.Unknown)) = false
    rw [List.any_eq_false]
    intro e he
    rw [List.mem_map] at he
    obtain ⟨n0, hn0, rfl⟩ := he
    by_cases hv : p.has ((alookup n0 scheme).getD DefaultColor.Unknown) = true
    · simp [fixColor, hv]
    · have hf := Bool.eq_false_iff.mpr hv
      simp [fixColor, hf]

/-- Witness for C9 at the concrete palette, scheme and color system. -/
theorem ensure_scheme_repair_idempotent_witness :
    (palW.ensure_color_scheme_is_valid_for_color_system
      (palW.ensure_color_scheme_is_valid_for_color_system schemeG csG).2
      csG).1 = false :=
  ensure_scheme_repair_idempotent palW schemeG csG (by decide) (by decide)

/-- C9 counterexample: with the duplicated color name "Red" the scheme keys
can never equal the color names, so every run rebuilds and reports a change;
the second run returns `true`, not `false`. -/
theorem ensure_scheme_repair_counterexample :
    (palEmpty.ensure_color_scheme_is_valid_for_color_system
      (palEmpty.ensure_color_scheme_is_valid_for_color_system [] csDup).2
      csDup).1 = true := by
  decide

end Hyperspeedcube
